import Mathlib

/-!
Verification model of the selfextract repository (src/main.go, src/extract.go).

Files are modelled as lists of bytes (`List Nat`, each element < 256 in the
intended interpretation).  Readers over a file are modelled by an explicit
position; a `Read` that asks for `n` bytes at position `pos` yields
`(file.drop pos).take n` and signals EOF exactly when that chunk is empty,
matching the behaviour of `os.File.Read` on a regular file.
-/

set_option maxRecDepth 4000

/-- Model of src/main.go `scanBlockSize = 128*1024`: the fixed read block. -/
def scanBlockSize : Nat := 128 * 1024

/-- Model of src/main.go `maxBoundaryOffset = 100e6`: the documented scan ceiling. -/
def maxBoundaryOffset : Nat := 100000000

/-- Model of src/main.go `keyLength = 16`. -/
def keyLength : Nat := 16

/-- Model of src/main.go `generateBoundary`: the SHA-512 digest of the string
"boundary", a fixed 64-byte constant; the digest bytes are precomputed here. -/
def generateBoundary : List Nat :=
  [0x29, 0xa0, 0x2e, 0xd9, 0xe7, 0xd8, 0x23, 0x52, 0x58, 0x2a, 0x95, 0xd0,
   0x47, 0xcc, 0x25, 0x11, 0x13, 0x13, 0x0d, 0x37, 0x69, 0x29, 0xf6, 0xbc,
   0x70, 0x93, 0x7a, 0x84, 0xc4, 0x99, 0x3a, 0x99, 0x52, 0x75, 0x05, 0xf5,
   0x24, 0xdf, 0x76, 0x6c, 0x34, 0x5d, 0xa5, 0x09, 0x34, 0x00, 0xd9, 0x5a,
   0xf9, 0x6d, 0x4a, 0x56, 0x32, 0xe1, 0x40, 0x66, 0x26, 0x0f, 0x12, 0xa9,
   0x7a, 0xa6, 0x7a, 0x43]

/-- Model of Go `bytes.Index s sep`: index of the first occurrence of `sep`
inside `s`, `none` when there is no occurrence (`-1` in Go). -/
def bytesIndex : List Nat → List Nat → Option Nat
  | s, sep =>
    if sep.isPrefixOf s then some 0
    else
      match s with
      | [] => none
      | _ :: t => (bytesIndex t sep).map (· + 1)

/-- One execution of the read loop of src/main.go `parseSelf` (lines 121-139).
Each iteration reads one block at `pos`, searches it with `bytes.Index`, and on
a miss advances `bdyOff` by a full `scanBlockSize` (the code does this even for
a short read).  The result pairs the loop outcome (`some` boundary offset, or
`none` for the EOF / "bufFull" exit) with the final read position, i.e. the
total number of bytes consumed from the file.  `fuel` bounds the recursion; it
is always called with more fuel than the loop can iterate. -/
def scanGo (file : List Nat) : Nat → Nat → Nat → Option Nat × Nat
  | 0, pos, _ => (none, pos)
  | fuel + 1, pos, bdyOff =>
    let chunk := (file.drop pos).take scanBlockSize
    if chunk.length = 0 then (none, pos)
    else
      match bytesIndex chunk generateBoundary with
      | some b => (some (bdyOff + b), pos + chunk.length)
      | none => scanGo file fuel (pos + chunk.length) (bdyOff + scanBlockSize)

/-- Outcome of the boundary search of `parseSelf`: `some` offset, or `none`
when the loop ended at EOF without a match (the `bufFull` path). -/
def scanResult (file : List Nat) : Option Nat :=
  (scanGo file (file.length + 1) 0 0).1

/-- Total number of bytes the boundary-search loop reads from the file. -/
def scanConsumed (file : List Nat) : Nat :=
  (scanGo file (file.length + 1) 0 0).2

/-- Little-endian byte string of length `k` for a natural number, one byte per
step; models Go `binary.LittleEndian.PutUint64` when `k = 8`. -/
def leBytesN : Nat → Nat → List Nat
  | 0, _ => []
  | k + 1, n => n % 256 :: leBytesN k (n / 256)

/-- The 8 little-endian bytes of a value, as written by the builder. -/
def leBytes8 (n : Nat) : List Nat := leBytesN 8 n

/-- Model of Go `binary.LittleEndian.Uint64`: decode bytes, least significant
first. -/
def leUint64 (bs : List Nat) : Nat := bs.foldr (fun b acc => b + 256 * acc) 0

/-- Go `int64(rawValue)`: reinterpret an unsigned 64-bit value as signed. -/
def int64OfUint64 (n : Nat) : Int :=
  if n < 2 ^ 63 then (n : Int) else (n : Int) - 2 ^ 64

/-- The sentinel length value checked at src/main.go line 159. -/
def sentinelValue : Nat := 0xdeadbeefdeadbeef

/-- Result of src/main.go `parseSelf`.  `builder` is the `(nil, nil)` return
(no payload: behave as the builder); `payload key size start` carries the key,
the decoded payload size and the file offset at which the `io.LimitReader`
begins; `fatal` models a `die` call. -/
inductive ParseResult where
  | builder : ParseResult
  | payload : List Nat → Int → Nat → ParseResult
  | fatal : String → ParseResult
deriving DecidableEq

/-- The 24-byte trailer buffer `parseSelf` reads after the boundary: a single
`Read` into a zero-initialised buffer of `keyLength + 8` bytes; a short read
leaves the tail of the buffer zero (src/main.go lines 150-154). -/
def trailerBuf (file : List Nat) (bdyOff : Nat) : List Nat :=
  let got := (file.drop (bdyOff + generateBoundary.length)).take (keyLength + 8)
  got ++ List.replicate (keyLength + 8 - got.length) 0

/-- The raw 64-bit length value `parseSelf` decodes from the trailer. -/
def trailerValue (file : List Nat) (bdyOff : Nat) : Nat :=
  leUint64 ((trailerBuf file bdyOff).drop keyLength |>.take 8)

/-- Model of src/main.go `parseSelf` (lines 114-169): block-scan for the
boundary, then read `keyLength + 8` trailer bytes, reject the sentinel length,
and return the key together with a reader bounded to the decoded payload
size starting right after the trailer. -/
def parseSelf (file : List Nat) : ParseResult :=
  match scanResult file with
  | none => ParseResult.builder
  | some bdyOff =>
    let avail := file.drop (bdyOff + generateBoundary.length)
    if avail.length = 0 then ParseResult.fatal "failed to read additional data from executable"
    else
      let got := avail.take (keyLength + 8)
      let buf := got ++ List.replicate (keyLength + 8 - got.length) 0
      let key := buf.take keyLength
      let rawValue := leUint64 (buf.drop keyLength |>.take 8)
      if rawValue = sentinelValue then ParseResult.fatal "Invalid archive size."
      else
        ParseResult.payload key (int64OfUint64 rawValue)
          (bdyOff + generateBoundary.length + got.length)

/-- The bytes the bounded payload reader of `parseSelf` yields: an
`io.LimitReader` capped at the decoded size, starting at the current offset
(a non-positive size yields no bytes, like `LimitReader` with `n <= 0`). -/
def parsePayloadBytes (file : List Nat) : Option (List Nat) :=
  match parseSelf file with
  | ParseResult.payload _ size start => some ((file.drop start).take size.toNat)
  | _ => none

/-- The placeholder bytes the builder writes for the payload length,
src/extract.go line 457: `"\xef\xbe\xad\xde\xef\xbe\xad\xde"`. -/
def sentinelPlaceholder : List Nat := [0xef, 0xbe, 0xad, 0xde, 0xef, 0xbe, 0xad, 0xde]

/-- The output file of `create` just before backpatching: stub, boundary,
key, length placeholder, then the compressed payload stream (the tar+zstd
encoding of the input files is treated as the opaque byte string `payload`). -/
def createUnpatched (stub key payload : List Nat) : List Nat :=
  stub ++ generateBoundary ++ key ++ sentinelPlaceholder ++ payload

/-- The offset `create` records after writing the placeholder (src/extract.go
line 462): the start of the payload region. -/
def payloadStartOffset (stub key : List Nat) : Nat :=
  (stub ++ generateBoundary ++ key ++ sentinelPlaceholder).length

/-- Backpatching step of `create` (src/extract.go lines 549-556): seek to
`offset - 8` and overwrite 8 bytes with the little-endian payload length. -/
def backpatch (file : List Nat) (offset len : Nat) : List Nat :=
  file.take (offset - 8) ++ leBytes8 len ++ file.drop offset

/-- The bytes of the archive `create` produces for a given stub, key and
compressed payload stream (src/extract.go lines 437-556). -/
def createBytes (stub key payload : List Nat) : List Nat :=
  backpatch (createUnpatched stub key payload) (payloadStartOffset stub key) payload.length

/-- Result of the builder: `fatalNoFiles` models the `die "no files to
archive"` at src/extract.go line 434, which runs before the output file is
opened; `wrote` carries the finished archive bytes. -/
inductive CreateResult where
  | fatalNoFiles : CreateResult
  | wrote : List Nat → CreateResult
deriving DecidableEq

/-- Model of src/extract.go `create` (lines 432-566) at the envelope level:
an empty input list dies before `os.OpenFile`; otherwise the output file holds
the stub, boundary, key, backpatched length and payload.  `files` is the list
of input path arguments; `payload` is the compressed tar stream their contents
produce. -/
def create (stub key : List Nat) (files : List String) (payload : List Nat) : CreateResult :=
  if files = [] then CreateResult.fatalNoFiles
  else CreateResult.wrote (createBytes stub key payload)

/-!
Model of the extraction directory logic of src/extract.go.  The extraction
directory is modelled as an association list from file names to byte contents;
`FsNode` models the `os.Stat` view of the configured path.
-/

/-- Model of src/extract.go `keyFileName = ".selfextract.key"`. -/
def keyFileName : String := ".selfextract.key"

/-- One hex digit as its lowercase ASCII code, as produced by Go
`hex.EncodeToString`. -/
def hexDigit (n : Nat) : Nat := if n < 10 then 48 + n else 87 + n

/-- Model of Go `hex.EncodeToString` on a byte string: two lowercase hex
digit bytes per input byte. -/
def hexEncode (bs : List Nat) : List Nat :=
  bs.flatMap (fun b => [hexDigit (b / 16), hexDigit (b % 16)])

/-- ASCII whitespace as trimmed by Go `strings.TrimSpace`. -/
def isSpaceByte (b : Nat) : Bool := b = 32 || (9 ≤ b && b ≤ 13)

/-- Model of Go `strings.TrimSpace` on a byte string. -/
def trimSpaceBytes (bs : List Nat) : List Nat :=
  ((bs.dropWhile isSpaceByte).reverse.dropWhile isSpaceByte).reverse

/-- Reading a file by name from a directory: `os.Open` + `io.ReadAll`;
`none` models the open failing because no such entry exists. -/
def fsRead (entries : List (String × List Nat)) (name : String) : Option (List Nat) :=
  (entries.find? (fun e => e.1 == name)).map (fun e => e.2)

/-- Writing a file by name into a directory: `os.Create` truncates an
existing entry of that name, otherwise the entry is appended. -/
def fsWrite : List (String × List Nat) → String → List Nat → List (String × List Nat)
  | [], name, c => [(name, c)]
  | e :: rest, name, c =>
    if e.1 == name then (name, c) :: rest else e :: fsWrite rest name c

/-- The `os.Stat` view of the configured extraction directory. -/
inductive FsNode where
  | missing : FsNode
  | nonDir : FsNode
  | dir : List (String × List Nat) → FsNode

/-- Outcome of the extraction-directory stages: `fatal` is the message of the
`die` that terminated the process (`none` when it kept running), `entries` the
contents of the directory when the stage finished, `skipExtract` the flag of
the `selfExtractor`. -/
structure PrepOutcome where
  fatal : Option String
  entries : List (String × List Nat)
  skipExtract : Bool
deriving DecidableEq

/-- Model of src/extract.go `prepareExtractDir` (lines 160-228) for a
caller-configured (persistent) directory: create it when missing; refuse a
non-directory; accept an empty directory; in a non-empty directory require the
key file — absent key file dies with the directory untouched, a matching key
file sets `skipExtract`, a mismatched key file has its directory contents (but
not the directory itself) removed by `cleanupDir` (lines 231-243). -/
def prepareExtractDir (key : List Nat) (node : FsNode) : PrepOutcome :=
  match node with
  | FsNode.missing => ⟨none, [], false⟩
  | FsNode.nonDir => ⟨some "extraction directory not a directory", [], false⟩
  | FsNode.dir entries =>
    if entries.length = 0 then ⟨none, entries, false⟩
    else
      match fsRead entries keyFileName with
      | none =>
        ⟨some "opening key file (extraction dir must be empty or contain a valid key file):",
          entries, false⟩
      | some keyData =>
        if hexEncode key = trimSpaceBytes keyData then ⟨none, entries, true⟩
        else ⟨none, [], false⟩

/-- The file-writing pass of src/extract.go `extract` (lines 276-331): write
every payload entry into the directory, then `createKeyFile` (lines 333-346)
writes the hex-encoded key as the last step.  `files` is the decoded content
of the tar stream (name, bytes). -/
def extractWrite (key : List Nat) (files : List (String × List Nat))
    (start : List (String × List Nat)) : List (String × List Nat) :=
  fsWrite (files.foldl (fun acc f => fsWrite acc f.1 f.2) start) keyFileName (hexEncode key)

/-- Model of src/extract.go `extract` (lines 266-331) composed after
`prepareExtractDir`: a prior `die` ends the run; `skipExtract` skips the
file-writing pass entirely; otherwise the payload entries and then the key
file are written. -/
def extractRun (key : List Nat) (files : List (String × List Nat))
    (prep : PrepOutcome) : PrepOutcome :=
  match prep.fatal with
  | some _ => prep
  | none =>
    if prep.skipExtract then prep
    else ⟨none, extractWrite key files prep.entries, false⟩

/-- One extraction run against a configured directory: `prepareExtractDir`
followed by `extract`. -/
def runExtraction (key : List Nat) (files : List (String × List Nat))
    (node : FsNode) : PrepOutcome :=
  extractRun key files (prepareExtractDir key node)

/-!
Model of the mount probe `checkExecutable` (src/extract.go lines 33-86).
The mount table content is a list of characters; `none` as table input models
`os.Open` or `io.ReadAll` of /proc/mounts failing.  The probe result is
`Option Bool`: `none` models a Go runtime panic (out-of-range index).
-/

/-- Split a character list on a separator character, keeping empty segments,
like Go `strings.Split` with a one-character separator. -/
def splitChar (c : Char) : List Char → List (List Char)
  | [] => [[]]
  | x :: xs =>
    match splitChar c xs with
    | [] => if x = c then [[], []] else [[x]]
    | h :: t => if x = c then [] :: h :: t else (x :: h) :: t

/-- Trailing-separator normalization of a mount point (src/extract.go lines
71-73): append a slash unless one is already there. -/
def normalizeMp (mp : List Char) : List Char :=
  if ['/'].isSuffixOf mp then mp else mp ++ ['/']

/-- Whether an option field lists `noexec` (src/extract.go line 67). -/
def hasNoexec (options : List Char) : Bool :=
  (splitChar ',' options).contains ['n', 'o', 'e', 'x', 'e', 'c']

/-- The loop body of `checkExecutable` over the mount-table lines, carrying
the `mntp`/`noexec` state.  Lines with fewer than 2 fields are skipped; for
the remaining lines the code reads `fields[1]` and `fields[3]`, which is an
out-of-range access (`none`, a Go panic) when the line has 2 or 3 fields.
An exact mount-point match returns immediately (the `break`); otherwise a
normalized mount point that is a proper path-prefix replaces the state when
strictly longer. -/
def mountLoop (path : List Char) : List (List Char) → List Char → Bool → Option (List Char × Bool)
  | [], mntp, nx => some (mntp, nx)
  | line :: rest, mntp, nx =>
    let fields := splitChar ' ' line
    if fields.length < 2 then mountLoop path rest mntp nx
    else if fields.length < 4 then none
    else
      let mountpoint := fields.getD 1 []
      let options := fields.getD 3 []
      if path.length < mountpoint.length then mountLoop path rest mntp nx
      else if mountpoint = path then some (mountpoint, hasNoexec options)
      else
        let mp := normalizeMp mountpoint
        if mp.isPrefixOf path then
          if mntp.length < mp.length then mountLoop path rest mp (hasNoexec options)
          else mountLoop path rest mntp nx
        else mountLoop path rest mntp nx

/-- Model of src/extract.go `checkExecutable`: `none` table input (open or
read failure) reports not executable; otherwise run the loop over the lines
of the table and negate the selected `noexec` flag.  A `none` result models
the loop panicking. -/
def checkExecutable (table : Option (List Char)) (path : List Char) : Option Bool :=
  match table with
  | none => some false
  | some data => (mountLoop path (splitChar '\n' data) [] false).map (fun st => !st.2)

/-- The match an individual well-formed mount-table line contributes for a
candidate path, per the specification's words: the entry matches when its
mount point equals the path or its trailing-separator normalization is a
path-prefix of it; the value carried is the (normalized) mount-point string
the loop stores, together with the `noexec` flag of the option list. -/
def lineEntry (path line : List Char) : Option (List Char × Bool) :=
  let fields := splitChar ' ' line
  if fields.length < 2 then none
  else
    let mountpoint := fields.getD 1 []
    let options := fields.getD 3 []
    if path.length < mountpoint.length then none
    else if mountpoint = path then some (mountpoint, hasNoexec options)
    else if (normalizeMp mountpoint).isPrefixOf path then
      some (normalizeMp mountpoint, hasNoexec options)
    else none

/-- All matching entries of a list of mount-table lines. -/
def matchLines (path : List Char) (lines : List (List Char)) : List (List Char × Bool) :=
  lines.filterMap (lineEntry path)

/-- All matching entries of a mount table for a candidate path. -/
def matchEntries (data path : List Char) : List (List Char × Bool) :=
  matchLines path (splitChar '\n' data)

/-!
Model of the lifecycle controller (src/extract.go lines 103-123, 348-411).
The concurrent structure — a signal goroutine and the child-running goroutine
racing to send on the single `exitCode` channel — is modelled by a `Reporter`
value naming which path reported first; the consumed value is passed to
`os.Exit` verbatim (line 98-100).
-/

/-- Outcome of `cmd.Run()` for the child process: a normal exit with a code
(`nil` error for code 0, `exec.ExitError` otherwise), a failure to start the
child (for example `exec.Error`), or another non-exit-code error. -/
inductive ChildRun where
  | exits : Nat → ChildRun
  | startFails : ChildRun
  | otherError : ChildRun
deriving DecidableEq

/-- What one reporting path does: send a code on the `exitCode` channel, or
panic before sending (the out-of-range `args[0]` access). -/
inductive SendResult where
  | sent : Nat → SendResult
  | panicked : SendResult
deriving DecidableEq

/-- Trim of ASCII whitespace on characters, Go `strings.TrimSpace`. -/
def trimSpaceChars (s : List Char) : List Char :=
  ((s.dropWhile Char.isWhitespace).reverse.dropWhile Char.isWhitespace).reverse

/-- The placeholder token substituted in the command-line spec,
src/extract.go line 386. -/
def extractDirToken : List Char :=
  ['_', '_', 'E', 'X', 'T', 'R', 'A', 'C', 'T', '_', 'D', 'I', 'R', '_', '_']

/-- Fuel-bounded core of Go `strings.ReplaceAll` for a non-empty pattern:
at each position either the pattern is consumed and replaced or one character
is kept.  The fuel is the length of the remaining input, which suffices. -/
def replaceAllFuel (pat rep : List Char) : Nat → List Char → List Char
  | 0, s => s
  | _ + 1, [] => []
  | fuel + 1, a :: rest =>
    if pat.isPrefixOf (a :: rest) then
      rep ++ replaceAllFuel pat rep fuel ((a :: rest).drop pat.length)
    else a :: replaceAllFuel pat rep fuel rest

/-- Go `strings.ReplaceAll s pat rep`; the call site only uses the fixed
non-empty token `extractDirToken` as `pat`. -/
def replaceAll (s pat rep : List Char) : List Char :=
  if pat = [] then s else replaceAllFuel pat rep s.length s

/-- Modelled from the spec: the shell-style tokenizer (the external
`github.com/google/shlex` dependency is not part of this repository's
sources).  Per the specification it tokenizes the substituted line
shell-style; on input without quotes or escapes that is whitespace splitting
with empty tokens dropped, and an empty or all-whitespace input yields no
tokens. -/
def shlexSplit (s : List Char) : List (List Char) :=
  (splitChar ' ' (s.map (fun c => if c.isWhitespace then ' ' else c))).filter
    (fun t => t ≠ [])

/-- The argument vector `runCmdline` builds (src/extract.go lines 385-394):
tokenize the trimmed, substituted spec content, then append the controller's
own invocation arguments `os.Args[1:]`. -/
def buildArgs (content dir : List Char) (tail : List (List Char)) : List (List Char) :=
  shlexSplit (replaceAll (trimSpaceChars content) extractDirToken dir) ++ tail

/-- Model of src/extract.go `runCmdline` (lines 369-411).  `content` is the
spec file's bytes (`none`: the open or read of the file failed, which sends
exit code 1); `child` is the outcome of `cmd.Run()`.  Indexing `args[0]` on an
empty vector is a Go panic (`panicked`).  A child exit code is propagated
verbatim; a start failure or other non-exit-code error sends 1; a clean run
sends 0 (`ChildRun.exits 0`). -/
def runCmdline (content : Option (List Char)) (dir : List Char)
    (tail : List (List Char)) (child : ChildRun) : SendResult :=
  match content with
  | none => SendResult.sent 1
  | some c =>
    match buildArgs c dir tail with
    | [] => SendResult.panicked
    | _ :: _ =>
      SendResult.sent
        (match child with
         | ChildRun.exits code => code
         | ChildRun.startFails => 1
         | ChildRun.otherError => 1)

/-- Which path reports first on the single `exitCode` channel: the signal
goroutine (src/extract.go line 121, after the grace period), the extract-only
branch of `startup` (line 351), or `runCmdline` for the child. -/
inductive Reporter where
  | signalPath : Reporter
  | extractOnlyPath : Reporter
  | childPath : Option (List Char) → List Char → List (List Char) → ChildRun → Reporter

/-- The value the winning reporter sends on the channel; `extract` passes the
first received value to `os.Exit` verbatim (src/extract.go lines 98-100). -/
def overallExit : Reporter → SendResult
  | Reporter.signalPath => SendResult.sent 2
  | Reporter.extractOnlyPath => SendResult.sent 0
  | Reporter.childPath content dir tail child => runCmdline content dir tail child

/-!
Concrete inputs used by the theorems below.
-/

/-- A file whose boundary marker begins 32 bytes before the end of the first
128 KiB read block, so the marker's 64 bytes straddle two successive blocks. -/
def straddleFile : List Nat :=
  List.replicate (scanBlockSize - 32) 0 ++ generateBoundary

/-- A two-entry mount table: `/` without `noexec`, `/tmp` with `noexec`. -/
def mountTable0 : List Char :=
  "dev / fs rw 0 0\ndev /tmp fs rw,noexec 0 0".toList

/-- A mount table whose first line is well-formed and matches `/`, and whose
second line has exactly 2 space-separated fields. -/
def badMountTable : List Char :=
  "dev / fs rw 0 0\nx y".toList

/-!
Theorems.  Each claim of the specification audit is settled by exactly one
theorem below, with witness and counterexample theorems as required.
-/

/-- C10: calling the builder with an empty list of input paths dies with
"no files to archive" before the output file is opened (the check at
src/extract.go line 433 precedes the `os.OpenFile` at line 437), so no
output bytes are produced for any stub, key or payload. -/
theorem create_no_files_fatal (stub key payload : List Nat) :
    create stub key [] payload = CreateResult.fatalNoFiles := rfl

/-- C9 (amended): in `runCmdline` the argument vector is non-empty at the
`args[0]` indexing point if and only if the tokenized substituted spec line
together with the appended invocation arguments is non-empty; with both empty
the access is out of bounds (a Go runtime panic). -/
theorem args_indexing_bounds (content dir : List Char) (tail : List (List Char))
    (child : ChildRun) :
    runCmdline (some content) dir tail child = SendResult.panicked
      ↔ buildArgs content dir tail = [] := by
  unfold runCmdline
  cases h : buildArgs content dir tail <;> simp [h]

/-- C9 counterexample: an empty command-line spec file together with an empty
invocation argument list makes the argument vector empty, and the `args[0]`
access panics instead of being in bounds. -/
theorem empty_cmdline_no_args_panics :
    buildArgs [] ['/', 'd'] [] = []
    ∧ runCmdline (some []) ['/', 'd'] [] (ChildRun.exits 0) = SendResult.panicked := by
  exact ⟨by decide, by decide⟩

/-- C8: the process exit code mapping: a child that runs and exits has its
exit code propagated verbatim through the exit-code channel; a child that
fails to start or fails with a non-exit-code error yields 1, as does a
failure to open or read the spec file; the signal path reports 2; extract-only
mode reports 0; the first value sent on the single channel is passed to
`os.Exit` verbatim. -/
theorem exit_code_mapping :
    (∀ content dir tail code, buildArgs content dir tail ≠ [] →
      overallExit (Reporter.childPath (some content) dir tail (ChildRun.exits code))
        = SendResult.sent code)
    ∧ (∀ content dir tail, buildArgs content dir tail ≠ [] →
        overallExit (Reporter.childPath (some content) dir tail ChildRun.startFails)
          = SendResult.sent 1)
    ∧ (∀ content dir tail, buildArgs content dir tail ≠ [] →
        overallExit (Reporter.childPath (some content) dir tail ChildRun.otherError)
          = SendResult.sent 1)
    ∧ (∀ dir tail child,
        overallExit (Reporter.childPath none dir tail child) = SendResult.sent 1)
    ∧ overallExit Reporter.signalPath = SendResult.sent 2
    ∧ overallExit Reporter.extractOnlyPath = SendResult.sent 0 := by
  refine ⟨?_, ?_, ?_, fun _ _ _ => rfl, rfl, rfl⟩
  · intro content dir tail code hargs
    show runCmdline (some content) dir tail (ChildRun.exits code) = SendResult.sent code
    unfold runCmdline
    cases h : buildArgs content dir tail
    · exact absurd h hargs
    · simp [h]
  · intro content dir tail hargs
    show runCmdline (some content) dir tail ChildRun.startFails = SendResult.sent 1
    unfold runCmdline
    cases h : buildArgs content dir tail
    · exact absurd h hargs
    · simp [h]
  · intro content dir tail hargs
    show runCmdline (some content) dir tail ChildRun.otherError = SendResult.sent 1
    unfold runCmdline
    cases h : buildArgs content dir tail
    · exact absurd h hargs
    · simp [h]

/-- C8 witness: a child exiting with code 7, launched from the spec line
"prog", yields exit code 7. -/
theorem exit_code_mapping_witness :
    buildArgs ['p', 'r', 'o', 'g'] ['/', 'd'] [] ≠ []
    ∧ overallExit (Reporter.childPath (some ['p', 'r', 'o', 'g']) ['/', 'd'] []
        (ChildRun.exits 7)) = SendResult.sent 7 :=
  ⟨by decide, exit_code_mapping.1 ['p', 'r', 'o', 'g'] ['/', 'd'] [] 7 (by decide)⟩

/-- Decoding the little-endian bytes of `n` recovers `n` modulo `256 ^ k`. -/
theorem leUint64_leBytesN (k : Nat) : ∀ n : Nat, leUint64 (leBytesN k n) = n % 256 ^ k := by
  induction k with
  | zero => intro n; simp [leBytesN, leUint64, Nat.mod_one]
  | succ k ih =>
    intro n
    show leUint64 (n % 256 :: leBytesN k (n / 256)) = n % 256 ^ (k + 1)
    have h1 : leUint64 (n % 256 :: leBytesN k (n / 256))
        = n % 256 + 256 * leUint64 (leBytesN k (n / 256)) := rfl
    have h2 : (256 : Nat) ^ (k + 1) = 256 * 256 ^ k := by ring
    rw [h1, ih, h2, Nat.mod_mul]

/-- The little-endian byte string of length `k` has length `k`. -/
theorem leBytesN_length (k : Nat) : ∀ n : Nat, (leBytesN k n).length = k := by
  induction k with
  | zero => intro n; rfl
  | succ k ih => intro n; show (leBytesN k (n / 256)).length + 1 = k + 1; rw [ih]

/-- Backpatching over the placeholder rewrites exactly the 8 placeholder
bytes, for any material before them and any payload after them. -/
theorem backpatch_layout (A payload : List Nat) (len : Nat) :
    backpatch (A ++ (sentinelPlaceholder ++ payload)) (A ++ sentinelPlaceholder).length len
      = A ++ (leBytes8 len ++ payload) := by
  unfold backpatch
  have h1 : (A ++ sentinelPlaceholder).length - 8 = A.length := by
    simp only [List.length_append]
    have : sentinelPlaceholder.length = 8 := rfl
    omega
  have h2 : (A ++ (sentinelPlaceholder ++ payload)).take A.length = A :=
    List.take_left A _
  have h3 : (A ++ (sentinelPlaceholder ++ payload)).drop (A ++ sentinelPlaceholder).length
      = payload := by
    rw [← List.append_assoc]
    exact List.drop_left _ _
  rw [h1, h2, h3]
  simp [List.append_assoc]

/-- After backpatching, the archive `create` writes is exactly the stub, the
boundary, the key, the little-endian payload length, and the payload. -/
theorem createBytes_eq (stub key payload : List Nat) :
    createBytes stub key payload
      = stub ++ generateBoundary ++ key ++ leBytes8 payload.length ++ payload := by
  have h0 := backpatch_layout (stub ++ generateBoundary ++ key) payload payload.length
  have e1 : createUnpatched stub key payload
      = (stub ++ generateBoundary ++ key) ++ (sentinelPlaceholder ++ payload) := by
    unfold createUnpatched
    simp [List.append_assoc]
  have e2 : payloadStartOffset stub key
      = ((stub ++ generateBoundary ++ key) ++ sentinelPlaceholder).length := by
    unfold payloadStartOffset
    simp [List.append_assoc]
  unfold createBytes
  rw [e1, e2, h0]
  simp [List.append_assoc]

/-- C3: in every archive the builder produces, the 8 little-endian bytes
written after the key decode to exactly the number of compressed payload bytes
that follow them (the backpatched length), and — whenever the block scanner
locates the boundary at its true offset — `parseSelf` returns the key and a
reader bounded to exactly `payload.length` bytes starting immediately after
the 24-byte trailer, which yields exactly the payload bytes. -/
theorem create_length_field_and_reader (stub key payload : List Nat)
    (hkey : key.length = keyLength)
    (hlen : payload.length < 2 ^ 63)
    (hscan : scanResult (createBytes stub key payload) = some stub.length) :
    createBytes stub key payload
      = stub ++ generateBoundary ++ key ++ leBytes8 payload.length ++ payload
    ∧ parseSelf (createBytes stub key payload)
        = ParseResult.payload key (payload.length : Int)
            (stub.length + generateBoundary.length + (keyLength + 8))
    ∧ parsePayloadBytes (createBytes stub key payload) = some payload := by
  have hC := createBytes_eq stub key payload
  have hb64 : generateBoundary.length = 64 := rfl
  have hle8 : (leBytes8 payload.length).length = 8 := leBytesN_length 8 _
  -- the region after the boundary
  have havail : (createBytes stub key payload).drop (stub.length + generateBoundary.length)
      = key ++ leBytes8 payload.length ++ payload := by
    rw [hC]
    have hgrp : stub ++ generateBoundary ++ key ++ leBytes8 payload.length ++ payload
        = (stub ++ generateBoundary) ++ (key ++ leBytes8 payload.length ++ payload) := by
      simp [List.append_assoc]
    rw [hgrp]
    exact List.drop_left' (by simp)
  have hraw : payload.length % 256 ^ 8 = payload.length := by
    apply Nat.mod_eq_of_lt
    calc payload.length < 2 ^ 63 := hlen
      _ < 256 ^ 8 := by norm_num
  have hsent : payload.length ≠ sentinelValue := by
    intro h
    rw [h] at hlen
    exact absurd hlen (by norm_num [sentinelValue])
  -- evaluate parseSelf
  have hgot : (key ++ leBytes8 payload.length ++ payload).take (keyLength + 8)
      = key ++ leBytes8 payload.length := by
    have hgrp : key ++ leBytes8 payload.length ++ payload
        = (key ++ leBytes8 payload.length) ++ payload := by simp [List.append_assoc]
    rw [hgrp]
    exact List.take_left' (by simp [hkey, hle8, keyLength])
  have hgotlen : (key ++ leBytes8 payload.length).length = keyLength + 8 := by
    simp [hkey, hle8]
  have hkeypart : (key ++ leBytes8 payload.length).take keyLength = key :=
    List.take_left' hkey
  have hlenpart : ((key ++ leBytes8 payload.length).drop keyLength).take 8
      = leBytes8 payload.length := by
    rw [List.drop_left' hkey]
    exact List.take_of_length_le (le_of_eq hle8)
  have hdecode : leUint64 (leBytes8 payload.length) = payload.length := by
    rw [leBytes8, leUint64_leBytesN, hraw]
  have hparse : parseSelf (createBytes stub key payload)
      = ParseResult.payload key (payload.length : Int)
          (stub.length + generateBoundary.length + (keyLength + 8)) := by
    unfold parseSelf
    rw [hscan]
    simp only [havail, hgot]
    have hne : (key ++ leBytes8 payload.length ++ payload).length ≠ 0 := by
      simp [List.length_append, hkey, keyLength]
    rw [if_neg hne]
    rw [hgotlen]
    simp only [Nat.sub_self, List.replicate_zero, List.append_nil]
    rw [hkeypart, hlenpart, hdecode]
    rw [if_neg hsent]
    have hint : int64OfUint64 payload.length = (payload.length : Int) := by
      unfold int64OfUint64
      rw [if_pos hlen]
    rw [hint]
  have hdropall : (createBytes stub key payload).drop
      (stub.length + generateBoundary.length + (keyLength + 8)) = payload := by
    rw [hC]
    have hgrp : stub ++ generateBoundary ++ key ++ leBytes8 payload.length ++ payload
        = ((stub ++ generateBoundary) ++ (key ++ leBytes8 payload.length)) ++ payload := by
      simp [List.append_assoc]
    rw [hgrp]
    refine List.drop_left' ?_
    simp only [List.length_append, hkey, hle8]
  refine ⟨hC, hparse, ?_⟩
  unfold parsePayloadBytes
  rw [hparse]
  show some (((createBytes stub key payload).drop
      (stub.length + generateBoundary.length + (keyLength + 8))).take
        ((payload.length : Int)).toNat) = some payload
  rw [hdropall]
  simp

/-- C3 witness: a 3-byte stub, a fixed 16-byte key and a 3-byte payload;
the scanner finds the boundary at offset 3 and all three conclusions hold. -/
theorem create_length_field_and_reader_witness :
    (List.range 16).length = keyLength
    ∧ ([1, 2, 3] : List Nat).length < 2 ^ 63
    ∧ scanResult (createBytes [7, 7, 7] (List.range 16) [1, 2, 3]) = some [7, 7, 7].length
    ∧ parseSelf (createBytes [7, 7, 7] (List.range 16) [1, 2, 3])
        = ParseResult.payload (List.range 16) (([1, 2, 3] : List Nat).length : Int)
            ([7, 7, 7].length + generateBoundary.length + (keyLength + 8))
    ∧ parsePayloadBytes (createBytes [7, 7, 7] (List.range 16) [1, 2, 3]) = some [1, 2, 3] :=
  ⟨by decide, by decide, by decide,
   (create_length_field_and_reader [7, 7, 7] (List.range 16) [1, 2, 3]
      (by decide) (by decide) (by decide)).2.1,
   (create_length_field_and_reader [7, 7, 7] (List.range 16) [1, 2, 3]
      (by decide) (by decide) (by decide)).2.2⟩

/-- C7: whenever the boundary scan succeeds and the 8-byte little-endian
length field of the trailer decodes to the sentinel value
`0xdeadbeefdeadbeef`, `parseSelf` dies with "Invalid archive size." before
constructing a payload reader, and no payload bytes are ever exposed. -/
theorem sentinel_length_fatal (file : List Nat) (bdyOff : Nat)
    (hscan : scanResult file = some bdyOff)
    (hsent : trailerValue file bdyOff = sentinelValue) :
    parseSelf file = ParseResult.fatal "Invalid archive size."
    ∧ parsePayloadBytes file = none := by
  have hform : parseSelf file =
      (if (file.drop (bdyOff + generateBoundary.length)).length = 0
       then ParseResult.fatal "failed to read additional data from executable"
       else
         if trailerValue file bdyOff = sentinelValue
         then ParseResult.fatal "Invalid archive size."
         else ParseResult.payload ((trailerBuf file bdyOff).take keyLength)
           (int64OfUint64 (trailerValue file bdyOff))
           (bdyOff + generateBoundary.length
             + ((file.drop (bdyOff + generateBoundary.length)).take (keyLength + 8)).length)) := by
    unfold parseSelf
    rw [hscan]
    rfl
  have hparse : parseSelf file = ParseResult.fatal "Invalid archive size." := by

    rw [hform]
    by_cases hav : (file.drop (bdyOff + generateBoundary.length)).length = 0
    · exfalso
      have hemp : file.drop (bdyOff + generateBoundary.length) = [] :=
        List.length_eq_zero.mp hav
      have hz : trailerValue file bdyOff = 0 := by
        unfold trailerValue trailerBuf
        rw [hemp]
        decide
      rw [hz] at hsent
      exact absurd hsent.symm (by decide)
    · rw [if_neg hav, if_pos hsent]
  refine ⟨hparse, ?_⟩
  unfold parsePayloadBytes
  rw [hparse]

/-- C7 witness: the unpatched archive for a 3-byte stub still carries the
placeholder, the scanner finds the boundary at offset 3, the trailer decodes
to the sentinel, and `parseSelf` dies before exposing any payload bytes. -/
theorem sentinel_length_fatal_witness :
    scanResult (createUnpatched [7, 7, 7] (List.range 16) [5, 5]) = some 3
    ∧ trailerValue (createUnpatched [7, 7, 7] (List.range 16) [5, 5]) 3 = sentinelValue
    ∧ parseSelf (createUnpatched [7, 7, 7] (List.range 16) [5, 5])
        = ParseResult.fatal "Invalid archive size."
    ∧ parsePayloadBytes (createUnpatched [7, 7, 7] (List.range 16) [5, 5]) = none :=
  ⟨by decide, by decide,
   (sentinel_length_fatal (createUnpatched [7, 7, 7] (List.range 16) [5, 5]) 3
      (by decide) (by decide)).1,
   (sentinel_length_fatal (createUnpatched [7, 7, 7] (List.range 16) [5, 5]) 3
      (by decide) (by decide)).2⟩

/-- A successful `bytes.Index` search decomposes the haystack around an
occurrence of the needle at the reported offset. -/
theorem bytesIndex_some_decomp (sep : List Nat) :
    ∀ (s : List Nat) (i : Nat), bytesIndex s sep = some i →
      ∃ pre suf, s = pre ++ sep ++ suf ∧ pre.length = i := by
  intro s
  induction s with
  | nil =>
    intro i h
    unfold bytesIndex at h
    by_cases hp : sep.isPrefixOf ([] : List Nat)
    · rw [if_pos hp] at h
      obtain ⟨t, ht⟩ := List.isPrefixOf_iff_prefix.mp hp
      have hi : 0 = i := by simpa using h
      refine ⟨[], t, by simp [← ht], by simp [← hi]⟩
    · rw [if_neg hp] at h
      exact absurd h (by simp)
  | cons a t ih =>
    intro i h
    unfold bytesIndex at h
    by_cases hp : sep.isPrefixOf (a :: t)
    · rw [if_pos hp] at h
      obtain ⟨u, hu⟩ := List.isPrefixOf_iff_prefix.mp hp
      refine ⟨[], u, by simp [← hu], ?_⟩
      simp at h
      simp [h]
    · rw [if_neg hp] at h
      simp only [Option.map_eq_some'] at h
      obtain ⟨j, hj, hji⟩ := h
      obtain ⟨pre, suf, hps, hlen⟩ := ih j hj
      refine ⟨a :: pre, suf, ?_, ?_⟩
      · simp [hps]
      · simp [hlen, ← hji]

/-- The length of the haystack bounds any occurrence: a successful search
needs at least the needle's length of material. -/
theorem bytesIndex_some_length (sep s : List Nat) (i : Nat)
    (h : bytesIndex s sep = some i) : sep.length ≤ s.length := by
  obtain ⟨pre, suf, hps, _⟩ := bytesIndex_some_decomp sep s i h
  subst hps
  simp [List.length_append]
  omega

/-- The boundary digest is not a prefix of any run of zero bytes. -/
theorem boundary_not_pre_replicate (m : Nat) :
    ¬ generateBoundary.isPrefixOf (List.replicate m 0) = true := by
  intro hp
  obtain ⟨t, ht⟩ := List.isPrefixOf_iff_prefix.mp hp
  have hmem : (0x29 : Nat) = 0 := by
    apply List.eq_of_mem_replicate (n := m)
    rw [← ht]
    apply List.mem_append_left
    decide
  exact absurd hmem (by decide)

/-- `bytes.Index` never finds the boundary digest inside a run of zero
bytes. -/
theorem bytesIndex_replicate_zero (m : Nat) :
    bytesIndex (List.replicate m 0) generateBoundary = none := by
  induction m with
  | zero =>
    unfold bytesIndex
    rw [if_neg (boundary_not_pre_replicate 0)]
    rfl
  | succ m ih =>
    unfold bytesIndex
    rw [if_neg (boundary_not_pre_replicate (m + 1))]
    show ((bytesIndex (List.replicate m 0) generateBoundary).map (· + 1)) = none
    rw [ih]
    rfl

/-- When no block of the file contains the boundary, the scan loop runs to
end-of-file: it consumes every byte and reports no match. -/
theorem scanGo_no_match (file : List Nat)
    (hnone : ∀ pos, bytesIndex ((file.drop pos).take scanBlockSize) generateBoundary = none) :
    ∀ (fuel pos bdyOff : Nat), pos ≤ file.length → file.length - pos < fuel →
      scanGo file fuel pos bdyOff = (none, file.length) := by
  intro fuel
  induction fuel with
  | zero => intro pos bdyOff hp hf; omega
  | succ n ih =>
    intro pos bdyOff hp hf
    show (if ((file.drop pos).take scanBlockSize).length = 0 then (none, pos)
          else
            match bytesIndex ((file.drop pos).take scanBlockSize) generateBoundary with
            | some b => (some (bdyOff + b), pos + ((file.drop pos).take scanBlockSize).length)
            | none => scanGo file n (pos + ((file.drop pos).take scanBlockSize).length)
                (bdyOff + scanBlockSize)) = (none, file.length)
    have hchunklen : ((file.drop pos).take scanBlockSize).length
        = min scanBlockSize (file.length - pos) := by
      simp [List.length_take, List.length_drop]
    by_cases hpos : pos = file.length
    · rw [if_pos]
      · rw [hpos]
      · rw [hchunklen, hpos]
        simp
    · have hlt : pos < file.length := lt_of_le_of_ne hp hpos
      have hgt : ((file.drop pos).take scanBlockSize).length ≠ 0 := by
        rw [hchunklen]
        have hB : 0 < scanBlockSize := by norm_num [scanBlockSize]
        omega
      have hc1 : 1 ≤ ((file.drop pos).take scanBlockSize).length := Nat.one_le_iff_ne_zero.mpr hgt
      have hc2 : ((file.drop pos).take scanBlockSize).length ≤ file.length - pos := by
        rw [hchunklen]; omega
      rw [if_neg hgt, hnone pos]
      exact ih (pos + ((file.drop pos).take scanBlockSize).length) (bdyOff + scanBlockSize)
        (by omega) (by omega)

/-- Unfolding equation for `scanConsumed`, applied by rewriting so that large
concrete files are never evaluated. -/
theorem scanConsumed_eq (file : List Nat) :
    scanConsumed file = (scanGo file (file.length + 1) 0 0).2 := rfl

/-- Unfolding equation for `scanResult`. -/
theorem scanResult_eq (file : List Nat) :
    scanResult file = (scanGo file (file.length + 1) 0 0).1 := rfl

/-- When the boundary scan reports no match, `parseSelf` returns the builder
mode `(nil, nil)` result. -/
theorem parseSelf_none (file : List Nat) (h : scanResult file = none) :
    parseSelf file = ParseResult.builder := by
  unfold parseSelf
  rw [h]

/-- C2: on a 100 MB + 128 KiB all-zero file — which contains no boundary
marker — the scan loop of `parseSelf` consumes every byte of the file, i.e.
it keeps reading until end-of-file even though the total scanned exceeds
`maxBoundaryOffset`; the constant is never consulted.  The loop still reports
no match (`scanResult = none`, the builder-mode return). -/
theorem scan_reads_past_ceiling :
    maxBoundaryOffset < (List.replicate (maxBoundaryOffset + scanBlockSize) 0).length
    ∧ scanConsumed (List.replicate (maxBoundaryOffset + scanBlockSize) 0)
        = (List.replicate (maxBoundaryOffset + scanBlockSize) 0).length
    ∧ scanResult (List.replicate (maxBoundaryOffset + scanBlockSize) 0) = none := by
  have hnone : ∀ pos,
      bytesIndex (((List.replicate (maxBoundaryOffset + scanBlockSize) 0).drop pos).take
        scanBlockSize) generateBoundary = none := by
    intro pos
    rw [List.drop_replicate, List.take_replicate]
    exact bytesIndex_replicate_zero _
  have h := scanGo_no_match (List.replicate (maxBoundaryOffset + scanBlockSize) 0) hnone
      ((List.replicate (maxBoundaryOffset + scanBlockSize) 0).length + 1) 0 0
      (Nat.zero_le _) (by omega)
  refine ⟨?_, ?_, ?_⟩
  · rw [List.length_replicate]
    norm_num [maxBoundaryOffset, scanBlockSize]
  · rw [scanConsumed_eq, h]
  · rw [scanResult_eq, h]

theorem straddleFile_eq : straddleFile = List.replicate 131040 0 ++ generateBoundary := by
  unfold straddleFile
  norm_num [scanBlockSize]

theorem boundary_len : generateBoundary.length = 64 := rfl

theorem straddleFile_len : straddleFile.length = 131104 := by
  rw [straddleFile_eq, List.length_append, List.length_replicate, boundary_len]

theorem scanGo_step (file : List Nat) (fuel pos bdyOff : Nat) :
    scanGo file (fuel + 1) pos bdyOff =
      if ((file.drop pos).take scanBlockSize).length = 0 then (none, pos)
      else
        match bytesIndex ((file.drop pos).take scanBlockSize) generateBoundary with
        | some b => (some (bdyOff + b), pos + ((file.drop pos).take scanBlockSize).length)
        | none => scanGo file fuel (pos + ((file.drop pos).take scanBlockSize).length)
            (bdyOff + scanBlockSize) := rfl

theorem chunk1_eq : (straddleFile.drop 0).take scanBlockSize
    = List.replicate 131040 0 ++ generateBoundary.take 32 := by
  have hmin : min scanBlockSize 131040 = 131040 := by norm_num [scanBlockSize]
  have hsub : scanBlockSize - 131040 = 32 := by norm_num [scanBlockSize]
  rw [List.drop_zero, straddleFile_eq, List.take_append_eq_append_take, List.take_replicate,
    List.length_replicate, hmin, hsub]

theorem chunk1_len : (List.replicate 131040 0 ++ generateBoundary.take 32).length = 131072 := by
  rw [List.length_append, List.length_replicate, List.length_take, boundary_len]
  omega

theorem bytesIndex_chunk1_none :
    bytesIndex (List.replicate 131040 0 ++ generateBoundary.take 32) generateBoundary = none := by
  cases hidx : bytesIndex (List.replicate 131040 0 ++ generateBoundary.take 32) generateBoundary with
  | none => rfl
  | some i =>
    exfalso
    obtain ⟨pre, suf, hps, hlen⟩ := bytesIndex_some_decomp _ _ _ hidx
    have hlen_eq : 131040 + 32 = pre.length + (64 + suf.length) := by
      have hcl := congrArg List.length hps
      rw [List.length_append, List.length_append, List.length_append,
        List.length_replicate, List.length_take, boundary_len,
        (rfl : (32 : Nat) ⊓ 64 = 32)] at hcl
      omega
    have hple : pre.length + 32 ≤ 131040 := by omega
    have hdrop : (List.replicate 131040 0 ++ generateBoundary.take 32).drop pre.length
        = generateBoundary ++ suf := by
      rw [hps, List.append_assoc]
      exact List.drop_left _ _
    have hlhs : ((List.replicate 131040 0 ++ generateBoundary.take 32).drop pre.length).take 32
        = List.replicate 32 0 := by
      rw [List.drop_append_eq_append_drop, List.drop_replicate, List.length_replicate]
      have h0 : pre.length - 131040 = 0 := by omega
      rw [h0, List.drop_zero, List.take_append_eq_append_take, List.take_replicate,
        List.length_replicate]
      have h1 : min 32 (131040 - pre.length) = 32 := by omega
      have h2 : 32 - (131040 - pre.length) = 0 := by omega
      rw [h1, h2, List.take_zero, List.append_nil]
    have hrhs : ((List.replicate 131040 0 ++ generateBoundary.take 32).drop pre.length).take 32
        = generateBoundary.take 32 := by
      rw [hdrop, List.take_append_eq_append_take]
      have h3 : (32 : Nat) - generateBoundary.length = 0 := by rw [boundary_len]
      rw [h3, List.take_zero, List.append_nil]
    have hcontra : generateBoundary.take 32 = List.replicate 32 0 := by
      rw [← hrhs, hlhs]
    exact absurd hcontra (by decide)

theorem straddle_drop1 : straddleFile.drop (0 + 131072) = generateBoundary.drop 32 := by
  rw [straddleFile_eq, Nat.zero_add, List.drop_append_eq_append_drop, List.drop_replicate,
    List.length_replicate, (by norm_num : (131040 : Nat) - 131072 = 0),
    (by norm_num : (131072 : Nat) - 131040 = 32), List.replicate_zero, List.nil_append]

theorem chunk2_eq : ((generateBoundary.drop 32)).take scanBlockSize = generateBoundary.drop 32 := by
  apply List.take_of_length_le
  rw [List.length_drop, boundary_len]
  norm_num [scanBlockSize]

theorem scanResult_straddle : scanResult straddleFile = none := by
  rw [scanResult_eq, straddleFile_len]
  rw [(by norm_num : (131104 : Nat) + 1 = 131103 + 1 + 1)]
  rw [scanGo_step, chunk1_eq, chunk1_len]
  rw [if_neg (by norm_num), bytesIndex_chunk1_none]
  rw [(by norm_num : (131103 : Nat) + 1 = 131102 + 1 + 1)]
  rw [scanGo_step, straddle_drop1, chunk2_eq]
  rw [(by decide : (generateBoundary.drop 32).length = 32)]
  rw [if_neg (by norm_num)]
  rw [(by decide : bytesIndex (generateBoundary.drop 32) generateBoundary = none)]
  rw [(by norm_num : (131102 : Nat) + 1 = 131101 + 1 + 1)]
  rw [scanGo_step]
  have hdropL : straddleFile.drop (0 + 131072 + 32) = [] := by
    apply List.drop_eq_nil_of_le
    rw [straddleFile_len]
  rw [hdropL, (rfl : (([] : List Nat).take scanBlockSize) = [])]
  rfl

/-- C1: the block scanner misses a boundary marker that straddles two
successive 128 KiB read blocks.  `straddleFile` contains the full 64-byte
marker (beginning 32 bytes before the first block boundary) well inside the
scan ceiling, yet `parseSelf` returns the builder-mode `(nil, nil)` result:
each block is searched independently at src/main.go line 133, so a marker
split across blocks is never found. -/
theorem straddle_marker_missed :
    (∃ pre suf, straddleFile = pre ++ generateBoundary ++ suf)
    ∧ straddleFile.length ≤ maxBoundaryOffset
    ∧ parseSelf straddleFile = ParseResult.builder := by
  refine ⟨⟨List.replicate 131040 0, [], ?_⟩, ?_, ?_⟩
  · rw [straddleFile_eq, List.append_nil]
  · rw [straddleFile_len]
    norm_num [maxBoundaryOffset]
  · exact parseSelf_none _ scanResult_straddle

/-- Hex digit codes are at least ASCII 48 ('0'), hence never whitespace. -/
theorem hexDigit_not_space (n : Nat) : isSpaceByte (hexDigit n) = false := by
  unfold hexDigit isSpaceByte
  by_cases h : n < 10 <;> simp [h] <;> omega

/-- No byte of a hex encoding is whitespace. -/
theorem hexEncode_not_space (bs : List Nat) :
    ∀ x ∈ hexEncode bs, isSpaceByte x = false := by
  intro x hx
  unfold hexEncode at hx
  rw [List.mem_flatMap] at hx
  obtain ⟨b, _, hb2⟩ := hx
  simp only [List.mem_cons, List.not_mem_nil, or_false] at hb2
  rcases hb2 with h | h
  · rw [h]; exact hexDigit_not_space _
  · rw [h]; exact hexDigit_not_space _

/-- `dropWhile` is the identity on a list none of whose elements satisfy the
predicate. -/
theorem dropWhile_eq_self_of_none {α : Type} (p : α → Bool) (l : List α)
    (h : ∀ x ∈ l, p x = false) : l.dropWhile p = l := by
  cases l with
  | nil => rfl
  | cons a t =>
    rw [List.dropWhile_cons]
    rw [h a (List.mem_cons_self a t)]
    simp

/-- `strings.TrimSpace` leaves a hex-encoded key unchanged. -/
theorem trimSpace_hexEncode (bs : List Nat) :
    trimSpaceBytes (hexEncode bs) = hexEncode bs := by
  unfold trimSpaceBytes
  rw [dropWhile_eq_self_of_none _ _ (hexEncode_not_space bs)]
  rw [dropWhile_eq_self_of_none _ _ ?hrev]
  · rw [List.reverse_reverse]
  case hrev =>
    intro x hx
    exact hexEncode_not_space bs x (List.mem_reverse.mp hx)

/-- Reading back the file just written returns the written content. -/
theorem fsRead_fsWrite_self (l : List (String × List Nat)) (name : String) (c : List Nat) :
    fsRead (fsWrite l name c) name = some c := by
  induction l with
  | nil =>
    show fsRead [(name, c)] name = some c
    unfold fsRead
    rw [List.find?_cons]
    simp
  | cons e rest ih =>
    show fsRead (if e.1 == name then (name, c) :: rest else e :: fsWrite rest name c) name
      = some c
    by_cases h : e.1 == name
    · rw [if_pos h]
      unfold fsRead
      rw [List.find?_cons]
      simp
    · rw [if_neg h]
      unfold fsRead
      rw [List.find?_cons]
      have h2 : (e.1 == name) = false := by
        exact Bool.not_eq_true _ ▸ (by simpa using h)
      rw [h2]
      exact ih

/-- Writing a file never leaves the directory empty. -/
theorem fsWrite_ne_nil (l : List (String × List Nat)) (name : String) (c : List Nat) :
    fsWrite l name c ≠ [] := by
  cases l with
  | nil => simp [fsWrite]
  | cons e rest =>
    show (if e.1 == name then (name, c) :: rest else e :: fsWrite rest name c) ≠ []
    by_cases h : e.1 == name
    · rw [if_pos h]; simp
    · rw [if_neg h]; simp

/-- The extraction pass always leaves the key file readable with the
hex-encoded key as its exact content (it is written last, src/extract.go
line 330 and lines 333-346). -/
theorem fsRead_extractWrite (key : List Nat) (files start : List (String × List Nat)) :
    fsRead (extractWrite key files start) keyFileName = some (hexEncode key) :=
  fsRead_fsWrite_self _ _ _

/-- The extraction pass leaves a non-empty directory. -/
theorem extractWrite_ne_nil (key : List Nat) (files start : List (String × List Nat)) :
    extractWrite key files start ≠ [] :=
  fsWrite_ne_nil _ _ _

/-- Unfolding equation for `prepareExtractDir` on an existing directory. -/
theorem prepareExtractDir_dir (key : List Nat) (entries : List (String × List Nat)) :
    prepareExtractDir key (FsNode.dir entries)
      = (if entries.length = 0 then ⟨none, entries, false⟩
         else
           match fsRead entries keyFileName with
           | none =>
             ⟨some "opening key file (extraction dir must be empty or contain a valid key file):",
               entries, false⟩
           | some keyData =>
             if hexEncode key = trimSpaceBytes keyData then ⟨none, entries, true⟩
             else ⟨none, [], false⟩) := rfl

/-- C4: extracting into a fresh persistent directory runs the file-writing
pass once (skipExtract stays false and the payload entries plus key file are
written); running the same archive a second time against the resulting
directory finds the key file, whose content matches the archive's hex-encoded
key after trimming, sets `skipExtract`, performs no writes, and leaves the
directory's content identical. -/
theorem second_extraction_skipped (key : List Nat) (files : List (String × List Nat)) :
    runExtraction key files (FsNode.dir [])
      = ⟨none, extractWrite key files [], false⟩
    ∧ runExtraction key files (FsNode.dir (extractWrite key files []))
      = ⟨none, extractWrite key files [], true⟩ := by
  constructor
  · rfl
  · unfold runExtraction
    rw [prepareExtractDir_dir]
    have hne : (extractWrite key files []).length ≠ 0 := by
      intro h
      exact extractWrite_ne_nil key files [] (List.length_eq_zero.mp h)
    rw [if_neg hne, fsRead_extractWrite]
    show extractRun key files
      (if hexEncode key = trimSpaceBytes (hexEncode key)
       then ⟨none, extractWrite key files [], true⟩
       else ⟨none, [], false⟩) = _
    rw [trimSpace_hexEncode, if_pos rfl]
    rfl

/-- C5: for a configured extraction directory that exists, is a directory and
is non-empty, the behavior is asymmetric.  Key file absent: the run dies
("opening key file ...") with the directory contents untouched and no
extraction.  Key file present with non-matching content: the directory's
contents are removed (the directory itself, modelled as the `FsNode.dir`
constructor, remains) and the full extraction pass then runs into the emptied
directory with `skipExtract` false. -/
theorem nonempty_dir_key_asymmetry (key : List Nat)
    (files entries : List (String × List Nat)) (hne : entries ≠ []) :
    (fsRead entries keyFileName = none →
      prepareExtractDir key (FsNode.dir entries)
        = ⟨some "opening key file (extraction dir must be empty or contain a valid key file):",
            entries, false⟩)
    ∧ (∀ keyData, fsRead entries keyFileName = some keyData →
        hexEncode key ≠ trimSpaceBytes keyData →
        prepareExtractDir key (FsNode.dir entries) = ⟨none, [], false⟩
        ∧ runExtraction key files (FsNode.dir entries)
            = ⟨none, extractWrite key files [], false⟩) := by
  have hlen : entries.length ≠ 0 := by
    intro h
    exact hne (List.length_eq_zero.mp h)
  constructor
  · intro habs
    rw [prepareExtractDir_dir, if_neg hlen, habs]
  · intro keyData hkd hmis
    have hprep : prepareExtractDir key (FsNode.dir entries) = ⟨none, [], false⟩ := by
      rw [prepareExtractDir_dir, if_neg hlen, hkd]
      simp only [if_neg hmis]
    refine ⟨hprep, ?_⟩
    unfold runExtraction
    rw [hprep]
    rfl

/-- C5 witness: a directory holding only "a" (no key file) dies untouched;
a directory holding only a key file with content "0" (which does not match
the hex encoding of the key [170] = "aa") is wiped and fully re-extracted. -/
theorem nonempty_dir_key_asymmetry_witness :
    prepareExtractDir [171] (FsNode.dir [("a", [1])])
      = ⟨some "opening key file (extraction dir must be empty or contain a valid key file):",
          [("a", [1])], false⟩
    ∧ runExtraction [170] [("b", [2])] (FsNode.dir [(".selfextract.key", [48])])
      = ⟨none, extractWrite [170] [("b", [2])] [], false⟩ :=
  ⟨(nonempty_dir_key_asymmetry [171] [] [("a", [1])] (by decide)).1 (by decide),
   ((nonempty_dir_key_asymmetry [170] [("b", [2])] [(".selfextract.key", [48])]
      (by decide)).2 [48] (by decide) (by decide)).2⟩

theorem mountLoop_nil (path mntp : List Char) (nx : Bool) :
    mountLoop path [] mntp nx = some (mntp, nx) := rfl

theorem mountLoop_cons (path line : List Char) (rest : List (List Char))
    (mntp : List Char) (nx : Bool) :
    mountLoop path (line :: rest) mntp nx =
      (if (splitChar ' ' line).length < 2 then mountLoop path rest mntp nx
       else if (splitChar ' ' line).length < 4 then none
       else if path.length < ((splitChar ' ' line).getD 1 []).length
       then mountLoop path rest mntp nx
       else if (splitChar ' ' line).getD 1 [] = path
       then some ((splitChar ' ' line).getD 1 [], hasNoexec ((splitChar ' ' line).getD 3 []))
       else if (normalizeMp ((splitChar ' ' line).getD 1 [])).isPrefixOf path
       then (if mntp.length < (normalizeMp ((splitChar ' ' line).getD 1 [])).length
             then mountLoop path rest (normalizeMp ((splitChar ' ' line).getD 1 []))
                    (hasNoexec ((splitChar ' ' line).getD 3 []))
             else mountLoop path rest mntp nx)
       else mountLoop path rest mntp nx) := rfl

theorem lineEntry_eq (path line : List Char) :
    lineEntry path line =
      (if (splitChar ' ' line).length < 2 then none
       else if path.length < ((splitChar ' ' line).getD 1 []).length then none
       else if (splitChar ' ' line).getD 1 [] = path
       then some ((splitChar ' ' line).getD 1 [], hasNoexec ((splitChar ' ' line).getD 3 []))
       else if (normalizeMp ((splitChar ' ' line).getD 1 [])).isPrefixOf path
       then some (normalizeMp ((splitChar ' ' line).getD 1 []),
              hasNoexec ((splitChar ' ' line).getD 3 []))
       else none) := rfl

theorem matchLines_nil (path : List Char) : matchLines path [] = [] := rfl

theorem matchLines_cons_none (path line : List Char) (rest : List (List Char))
    (h : lineEntry path line = none) :
    matchLines path (line :: rest) = matchLines path rest := by
  unfold matchLines
  rw [List.filterMap_cons, h]

theorem matchLines_cons_some (path line : List Char) (rest : List (List Char))
    (e : List Char × Bool) (h : lineEntry path line = some e) :
    matchLines path (line :: rest) = e :: matchLines path rest := by
  unfold matchLines
  rw [List.filterMap_cons, h]

theorem lineEntry_pre (path line : List Char) (e : List Char × Bool)
    (h : lineEntry path line = some e) : e.1 <+: path := by
  rw [lineEntry_eq] at h
  split_ifs at h with h2 hskip hexact hpref
  · injection h with h5
    rw [← h5]
    rw [hexact]
  · injection h with h5
    rw [← h5]
    exact List.isPrefixOf_iff_prefix.mp hpref

theorem matchLines_pre (path : List Char) (lines : List (List Char)) :
    ∀ p ∈ matchLines path lines, p.1 <+: path := by
  induction lines with
  | nil => intro p hp; rw [matchLines_nil] at hp; cases hp
  | cons l rest ih =>
    intro p hp
    cases hle : lineEntry path l with
    | none =>
      rw [matchLines_cons_none path l rest hle] at hp
      exact ih p hp
    | some e =>
      rw [matchLines_cons_some path l rest e hle] at hp
      rcases List.mem_cons.mp hp with h | h
      · rw [h]; exact lineEntry_pre path l e hle
      · exact ih p h

theorem pre_eq_of_length_eq {l1 l2 path : List Char}
    (h1 : l1 <+: path) (h2 : l2 <+: path) (h : l1.length = l2.length) : l1 = l2 := by
  rw [List.prefix_iff_eq_take] at h1 h2
  rw [h1, h2, h]

theorem mountLoop_max (path eff : List Char) (nx : Bool)
    (heff : eff <+: path) :
    ∀ (lines : List (List Char)) (mntp : List Char) (nx0 : Bool),
      (∀ l ∈ lines, (splitChar ' ' l).length < 2 ∨ 4 ≤ (splitChar ' ' l).length) →
      (∀ p ∈ matchLines path lines, p.1.length ≤ eff.length) →
      (∀ p ∈ matchLines path lines, p.1 = eff → p.2 = nx) →
      mntp <+: path →
      mntp.length ≤ eff.length →
      (mntp = eff → nx0 = nx) →
      ((eff, nx) ∈ matchLines path lines ∨ mntp = eff) →
      mountLoop path lines mntp nx0 = some (eff, nx) := by
  intro lines
  induction lines with
  | nil =>
    intro mntp nx0 _ _ _ _ _ hcarry hdisj
    rcases hdisj with hmem | hm
    · rw [matchLines_nil] at hmem
      cases hmem
    · rw [mountLoop_nil, hm, hcarry hm]
  | cons l rest ih =>
    intro mntp nx0 hwf hmax huniq hpre hlen hcarry hdisj
    have hwfrest : ∀ l2 ∈ rest, (splitChar ' ' l2).length < 2 ∨ 4 ≤ (splitChar ' ' l2).length :=
      fun l2 hl2 => hwf l2 (List.mem_cons_of_mem _ hl2)
    rw [mountLoop_cons]
    by_cases h2 : (splitChar ' ' l).length < 2
    · rw [if_pos h2]
      have hle : lineEntry path l = none := by
        rw [lineEntry_eq, if_pos h2]
      rw [matchLines_cons_none path l rest hle] at hmax huniq hdisj
      exact ih mntp nx0 hwfrest hmax huniq hpre hlen hcarry hdisj
    · rw [if_neg h2]
      have h4 : 4 ≤ (splitChar ' ' l).length := by
        rcases hwf l (List.mem_cons_self l rest) with h | h
        · exact absurd h h2
        · exact h
      rw [if_neg (by omega : ¬ (splitChar ' ' l).length < 4)]
      by_cases hskip : path.length < ((splitChar ' ' l).getD 1 []).length
      · rw [if_pos hskip]
        have hle : lineEntry path l = none := by
          rw [lineEntry_eq, if_neg h2, if_pos hskip]
        rw [matchLines_cons_none path l rest hle] at hmax huniq hdisj
        exact ih mntp nx0 hwfrest hmax huniq hpre hlen hcarry hdisj
      · rw [if_neg hskip]
        by_cases hexact : (splitChar ' ' l).getD 1 [] = path
        · rw [if_pos hexact]
          have hle : lineEntry path l
              = some ((splitChar ' ' l).getD 1 [], hasNoexec ((splitChar ' ' l).getD 3 [])) := by
            rw [lineEntry_eq, if_neg h2, if_neg hskip, if_pos hexact]
          have hml := matchLines_cons_some path l rest _ hle
          have hmem_head : ((splitChar ' ' l).getD 1 [], hasNoexec ((splitChar ' ' l).getD 3 []))
              ∈ matchLines path (l :: rest) := by
            rw [hml]
            exact List.mem_cons_self _ _
          have hmpeff : (splitChar ' ' l).getD 1 [] = eff := by
            have ha : ((splitChar ' ' l).getD 1 []).length ≤ eff.length := hmax _ hmem_head
            have hb : eff.length ≤ path.length := heff.length_le
            have hc : ((splitChar ' ' l).getD 1 []).length = path.length := by rw [hexact]
            have heq : eff = path := pre_eq_of_length_eq heff (List.prefix_refl path) (by omega)
            rw [hexact, heq]
          have hnxeq : hasNoexec ((splitChar ' ' l).getD 3 []) = nx :=
            huniq _ hmem_head hmpeff
          rw [hmpeff, hnxeq]
        · rw [if_neg hexact]
          by_cases hpref : (normalizeMp ((splitChar ' ' l).getD 1 [])).isPrefixOf path
          · rw [if_pos hpref]
            have hle : lineEntry path l
                = some (normalizeMp ((splitChar ' ' l).getD 1 []),
                    hasNoexec ((splitChar ' ' l).getD 3 [])) := by
              rw [lineEntry_eq, if_neg h2, if_neg hskip, if_neg hexact, if_pos hpref]
            have hml := matchLines_cons_some path l rest _ hle
            have hmem_head : (normalizeMp ((splitChar ' ' l).getD 1 []),
                hasNoexec ((splitChar ' ' l).getD 3 [])) ∈ matchLines path (l :: rest) := by
              rw [hml]
              exact List.mem_cons_self _ _
            have hnp : normalizeMp ((splitChar ' ' l).getD 1 []) <+: path :=
              List.isPrefixOf_iff_prefix.mp hpref
            have hnlen : (normalizeMp ((splitChar ' ' l).getD 1 [])).length ≤ eff.length :=
              hmax _ hmem_head
            have hmaxrest : ∀ p ∈ matchLines path rest, p.1.length ≤ eff.length := by
              intro p hp
              exact hmax p (by rw [hml]; exact List.mem_cons_of_mem _ hp)
            have huniqrest : ∀ p ∈ matchLines path rest, p.1 = eff → p.2 = nx := by
              intro p hp
              exact huniq p (by rw [hml]; exact List.mem_cons_of_mem _ hp)
            by_cases hrepl : mntp.length < (normalizeMp ((splitChar ' ' l).getD 1 [])).length
            · rw [if_pos hrepl]
              refine ih (normalizeMp ((splitChar ' ' l).getD 1 []))
                (hasNoexec ((splitChar ' ' l).getD 3 [])) hwfrest hmaxrest huniqrest hnp hnlen
                (fun he => huniq _ hmem_head he) ?_
              by_cases he : normalizeMp ((splitChar ' ' l).getD 1 []) = eff
              · right
                exact he
              · left
                rcases hdisj with hmem | hm
                · rw [hml] at hmem
                  rcases List.mem_cons.mp hmem with hh | hh
                  · exfalso
                    apply he
                    have := congrArg Prod.fst hh
                    exact this.symm
                  · exact hh
                · exfalso
                  rw [hm] at hrepl
                  omega
            · rw [if_neg hrepl]
              refine ih mntp nx0 hwfrest hmaxrest huniqrest hpre hlen hcarry ?_
              rcases hdisj with hmem | hm
              · rw [hml] at hmem
                rcases List.mem_cons.mp hmem with hh | hh
                · right
                  have heeq : eff = normalizeMp ((splitChar ' ' l).getD 1 []) := by
                    have := congrArg Prod.fst hh
                    exact this
                  have hlen2 : eff.length
                      = (normalizeMp ((splitChar ' ' l).getD 1 [])).length := by
                    rw [heeq]
                  have hml2 : mntp.length = eff.length := by omega
                  exact pre_eq_of_length_eq hpre heff hml2
                · left
                  exact hh
              · right
                exact hm
          · rw [if_neg hpref]
            have hle : lineEntry path l = none := by
              rw [lineEntry_eq, if_neg h2, if_neg hskip, if_neg hexact, if_neg hpref]
            rw [matchLines_cons_none path l rest hle] at hmax huniq hdisj
            exact ih mntp nx0 hwfrest hmax huniq hpre hlen hcarry hdisj

/-- C6 (amended): for a mount table whose lines each have either fewer than 2
or at least 4 space-separated fields, if `(eff, nx)` is a matching entry (the
mount point equals the path, or its trailing-slash normalization is a prefix
of the path) whose stored mount-point string is the longest among all matches
(uniquely, up to its noexec flag), then the probe reports executable iff the
selected entry's option list lacks `noexec`; and if the mount table cannot be
opened or read, the probe reports not executable (fail closed). -/
theorem checkExecutable_longest_match (data path eff : List Char) (nx : Bool)
    (hwf : ∀ l ∈ splitChar '\n' data,
      (splitChar ' ' l).length < 2 ∨ 4 ≤ (splitChar ' ' l).length)
    (hne : eff ≠ [])
    (hmem : (eff, nx) ∈ matchEntries data path)
    (hmax : ∀ p ∈ matchEntries data path, p.1.length ≤ eff.length)
    (huniq : ∀ p ∈ matchEntries data path, p.1 = eff → p.2 = nx) :
    checkExecutable (some data) path = some (!nx)
    ∧ (∀ q, checkExecutable none q = some false) := by
  have heff : eff <+: path := matchLines_pre path (splitChar '\n' data) (eff, nx) hmem
  have hloop := mountLoop_max path eff nx heff (splitChar '\n' data) [] false hwf hmax huniq
    List.nil_prefix (Nat.zero_le _) (fun h => absurd h.symm hne) (Or.inl hmem)
  constructor
  · show (mountLoop path (splitChar '\n' data) [] false).map (fun st => !st.2) = some (!nx)
    rw [hloop]
    rfl
  · intro q
    rfl

/-- C6 witness: on the table with `/` (no noexec) and `/tmp` (noexec), the
probe for /tmp/sub/dir selects /tmp/ and reports not executable, while the
probe for /other selects / and reports executable. -/
theorem checkExecutable_longest_match_witness :
    checkExecutable (some mountTable0) "/tmp/sub/dir".toList = some false
    ∧ checkExecutable (some mountTable0) "/other".toList = some true := by
  constructor
  · exact (checkExecutable_longest_match mountTable0 "/tmp/sub/dir".toList
      "/tmp/".toList true (by decide) (by decide) (by decide) (by decide) (by decide)).1
  · exact (checkExecutable_longest_match mountTable0 "/other".toList
      "/".toList false (by decide) (by decide) (by decide) (by decide) (by decide)).1

/-- C6 counterexample: a table whose first line is well-formed and matches `/`
(without noexec, so the claim requires the probe to report executable) and
whose second line has exactly 2 space-separated fields makes `checkExecutable`
panic on the out-of-range `fields[3]` access (modelled as `none`) instead of
reporting a result. -/
theorem mount_malformed_line_panics :
    (("/".toList, false) ∈ matchEntries badMountTable "/tmp".toList)
    ∧ (∀ p ∈ matchEntries badMountTable "/tmp".toList, p.1.length ≤ 1)
    ∧ checkExecutable (some badMountTable) "/tmp".toList = none := by
  refine ⟨by decide, by decide, by decide⟩
